import Mathlib

/-!
Verification development for the `func-rs` function-algebra crate
(`src/src/func.rs`): a catalogue of real-valued single-variable function
nodes (constant, identity, sum, product, power, exponentials, logarithms,
trigonometric functions and roots), each implementing the `FuncEval` trait
with a single method `eval(&self, x: f64) -> f64`.

The Rust code computes with `f64`.  We model an `f64` value as either a
finite real number or the not-a-number value `nan`.  IEEE infinities and
the sign of zero are not modelled: no property below depends on them (the
cases that would produce an infinity, such as `ln(0)` or division by zero,
are collapsed to `nan` and are marked where they occur), and real
arithmetic has no overflow, so finite operations stay finite.  The
transcendental `f64` operations (`powf`, `ln`, `sin`, ...) are modelled by
their exact real counterparts together with the IEEE rule that an argument
outside the mathematical domain yields `nan`.
-/

open Classical

noncomputable section

/-- Model of a Rust `f64` value: a finite real number or not-a-number. -/
inductive F64 : Type
  | fin (r : ℝ) : F64
  | nan : F64

/-- IEEE `==` on modelled `f64` values: `nan` compares unequal to
everything, including itself; finite values compare by value. -/
def F64.ieeeEq : F64 → F64 → Prop
  | .fin a, .fin b => a = b
  | _, _ => False

/-- IEEE `!=`, i.e. the negation of IEEE `==` (Rust `n != 0f64`). -/
def F64.ieeeNe (a b : F64) : Prop := ¬ F64.ieeeEq a b

/-- `f64` addition (`+` in `FuncSum::eval`): `nan` is absorbing, finite
values add exactly (real addition models the IEEE operation). -/
def F64.add : F64 → F64 → F64
  | .fin a, .fin b => .fin (a + b)
  | _, _ => .nan

/-- `f64` multiplication (`*` in `FuncProd::eval`): `nan` is absorbing,
finite values multiply exactly. -/
def F64.mul : F64 → F64 → F64
  | .fin a, .fin b => .fin (a * b)
  | _, _ => .nan

/-- `f64` division (`1f64 / self.n` in `FuncNthrt::eval`): `nan` is
absorbing; division of a finite value by zero (IEEE: an infinity or `nan`)
is outside the finite-or-nan carrier and is collapsed to `nan`. -/
def F64.div : F64 → F64 → F64
  | .fin a, .fin b => if b = 0 then .nan else .fin (a / b)
  | _, _ => .nan

/-- Whether a real number is the value of an integer (a `powf` exponent
that IEEE treats as integral). -/
def isIntValued (e : ℝ) : Prop := ∃ k : ℤ, (k : ℝ) = e

/-- Rust `f64::powf`.  IEEE special cases kept by the model:
`powf(b, nan) = nan` unless `b = 1`, `powf(nan, e) = nan` unless `e = 0`
(IEEE: `powf(1, e) = 1` and `powf(b, 0) = 1` for every argument, `nan`
included), and a negative base with a non-integral exponent yields `nan`.
On the remaining finite cases the result is `Real.rpow`, which agrees with
the real power function there (for a negative base and an integral
exponent `Real.rpow` is the signed integer power).  Not modelled (no
finite result in IEEE): `powf(0, e)` for `e < 0`, which is an infinity in
IEEE and `Real.rpow 0 e = 0` here. -/
def F64.powf : F64 → F64 → F64
  | .fin b, .fin e =>
      if b < 0 ∧ ¬ isIntValued e then .nan else .fin (b ^ e)
  | .fin b, .nan => if b = 1 then .fin 1 else .nan
  | .nan, .fin e => if e = 0 then .fin 1 else .nan
  | .nan, .nan => .nan

/-- Rust `f64::ln`: `nan` for `nan` or negative arguments, the real
natural logarithm for positive arguments.  `ln(0)` (IEEE: negative
infinity) is outside the carrier and collapsed to `nan`; no property
below evaluates `ln` at `0`. -/
def F64.ln : F64 → F64
  | .fin a => if a ≤ 0 then .nan else .fin (Real.log a)
  | .nan => .nan

/-- Rust `f64::log(self, base)` as used in `FuncLogA::eval`: the natural
logarithm of the argument divided by the natural logarithm of the base. -/
def F64.log (v b : F64) : F64 := F64.div (F64.ln v) (F64.ln b)

/-- Rust `f64::sin` (total on the reals). -/
def F64.sin : F64 → F64
  | .fin a => .fin (Real.sin a)
  | .nan => .nan

/-- Rust `f64::cos` (total on the reals). -/
def F64.cos : F64 → F64
  | .fin a => .fin (Real.cos a)
  | .nan => .nan

/-- Rust `f64::tan`.  A finite `f64` argument is never an exact odd
multiple of `π/2`, so the IEEE result is always finite; `Real.tan` models
it (at the real poles `Real.tan` returns the junk value `0`, a point no
property below evaluates). -/
def F64.tan : F64 → F64
  | .fin a => .fin (Real.tan a)
  | .nan => .nan

/-- Rust `f64::asin`: `nan` outside `[-1, 1]`, the real arc sine inside. -/
def F64.asin : F64 → F64
  | .fin a => if a < -1 ∨ 1 < a then .nan else .fin (Real.arcsin a)
  | .nan => .nan

/-- Rust `f64::acos`: `nan` outside `[-1, 1]`, the real arc cosine inside.
(Defined for completeness: the crate declares `FuncAcos` but implements no
`FuncEval` for it, so no node below uses this operation.) -/
def F64.acos : F64 → F64
  | .fin a => if a < -1 ∨ 1 < a then .nan else .fin (Real.arccos a)
  | .nan => .nan

/-- Rust `f64::atan` (total on the reals). -/
def F64.atan : F64 → F64
  | .fin a => .fin (Real.arctan a)
  | .nan => .nan

/-- Rust `f64::sqrt`: `nan` for negative arguments, the real square root
otherwise. -/
def F64.sqrt : F64 → F64
  | .fin a => if a < 0 then .nan else .fin (Real.sqrt a)
  | .nan => .nan

/-- Rust `f64::cbrt`: the real (sign-preserving) cube root, total on the
reals. -/
def F64.cbrt : F64 → F64
  | .fin a =>
      if a < 0 then .fin (-((-a) ^ ((1 : ℝ) / 3))) else .fin (a ^ ((1 : ℝ) / 3))
  | .nan => .nan

/-- Rust `std::f64::consts::E`, Euler's constant (modelled exactly). -/
def F64.E : F64 := .fin (Real.exp 1)

/-- The kinds of the `FuncType` enum of `src/src/func.rs` (lines 3-23). -/
inductive FuncType : Type
  | Abstract
  | Const
  | Idem
  | Sum
  | Prod
  | Pow
  | ExpA
  | ExpE
  | LogA
  | LogE
  | TrigSin
  | TrigCos
  | TrigTan
  | TrigAsin
  | TrigAcos
  | TrigAtan
  | Sqrt
  | Qbrt
  | Nthrt
  deriving DecidableEq

/-- Which node kinds have an `impl FuncEval for ...` block in
`src/src/func.rs`, i.e. actually provide an `eval` method.  Transcribed
impl by impl: `Func` (line 41), `FuncConst` (line 59), `FuncIdem`
(line 79), `FuncSum` (line 104), `FuncProd` (line 132), `FuncPow`
(line 160), `FuncExpA` (line 188), `FuncExpE` (line 215), `FuncLogA`
(line 243), `FuncLogE` (line 270), `FuncSin` (line 297), `FuncCos`
(line 324), `FuncTan` (line 351), `FuncAsin` (line 378), `FuncAtan`
(line 423), `FuncSqrt` (line 447), `FuncQbrt` (line 474), `FuncNthrt`
(line 503).  `FuncAcos` (struct at line 389, constructor at line 400) has
no such block: the file goes straight from its constructor to the
`FuncAtan` struct. -/
def hasFuncEvalImpl : FuncType → Bool
  | .Abstract => true
  | .Const => true
  | .Idem => true
  | .Sum => true
  | .Prod => true
  | .Pow => true
  | .ExpA => true
  | .ExpE => true
  | .LogA => true
  | .LogE => true
  | .TrigSin => true
  | .TrigCos => true
  | .TrigTan => true
  | .TrigAsin => true
  | .TrigAcos => false
  | .TrigAtan => true
  | .Sqrt => true
  | .Qbrt => true
  | .Nthrt => true

/-- An expression tree over the node catalogue of `src/src/func.rs`: one
constructor per struct that implements `FuncEval`, carrying the struct's
scalar `f64` parameters and child node(s).  In Rust the children are
generic (`T: FuncEval`); the tree instantiates that capability with the
closed catalogue itself, which is everything the crate provides.
`FuncAcos` has no constructor here: it implements no `FuncEval`, so a
value of it can never be evaluated nor appear as a child inside an
evaluated tree (`.eval` on it does not compile). -/
inductive Func : Type
  | abstract : Func
  | const (c : F64) : Func
  | idem : Func
  | sum (f g : Func) : Func
  | prod (f g : Func) : Func
  | pow (f : Func) (n : F64) : Func
  | expA (a : F64) (f : Func) : Func
  | expE (f : Func) : Func
  | logA (b : F64) (f : Func) : Func
  | logE (f : Func) : Func
  | sin (f : Func) : Func
  | cos (f : Func) : Func
  | tan (f : Func) : Func
  | asin (f : Func) : Func
  | atan (f : Func) : Func
  | sqrt (f : Func) : Func
  | qbrt (f : Func) : Func
  | nthrt (n : F64) (f : Func) : Func

/-- The `eval` methods of `src/src/func.rs`, one match arm per
`impl FuncEval` block, in file order.  Note the `expE` arm: the source of
`FuncExpE::eval` (line 220) is `std::f64::consts::E.powf(x)` — it raises
`e` to the raw input `x` and never calls `self.f.eval`, unlike every
other combinator, which transforms its child's result. -/
def Func.eval : Func → F64 → F64
  | .abstract, _ => .fin 0
  | .const c, _ => c
  | .idem, x => x
  | .sum f g, x => F64.add (Func.eval f x) (Func.eval g x)
  | .prod f g, x => F64.mul (Func.eval f x) (Func.eval g x)
  | .pow f n, x => F64.powf (Func.eval f x) n
  | .expA a f, x => F64.powf a (Func.eval f x)
  | .expE _, x => F64.powf F64.E x
  | .logA b f, x => F64.log (Func.eval f x) b
  | .logE f, x => F64.ln (Func.eval f x)
  | .sin f, x => F64.sin (Func.eval f x)
  | .cos f, x => F64.cos (Func.eval f x)
  | .tan f, x => F64.tan (Func.eval f x)
  | .asin f, x => F64.asin (Func.eval f x)
  | .atan f, x => F64.atan (Func.eval f x)
  | .sqrt f, x => F64.sqrt (Func.eval f x)
  | .qbrt f, x => F64.cbrt (Func.eval f x)
  | .nthrt n f, x => F64.powf (Func.eval f x) (F64.div (.fin 1) n)

/-- `FuncNthrt::new` (`src/src/func.rs` lines 497-500): `assert!(n != 0f64)`
then build the node.  The assertion is an IEEE comparison; a failed
assertion terminates the process and produces no node, modelled as
`none`. -/
def FuncNthrt.new (n : F64) (f : Func) : Option Func :=
  if F64.ieeeNe n (.fin 0) then some (Func.nthrt n f) else none

/-- Number of nodes of an expression tree: a bound on the depth of the
recursive delegation `eval` performs. -/
def Func.size : Func → ℕ
  | .abstract => 1
  | .const _ => 1
  | .idem => 1
  | .sum f g => 1 + Func.size f + Func.size g
  | .prod f g => 1 + Func.size f + Func.size g
  | .pow f _ => 1 + Func.size f
  | .expA _ f => 1 + Func.size f
  | .expE f => 1 + Func.size f
  | .logA _ f => 1 + Func.size f
  | .logE f => 1 + Func.size f
  | .sin f => 1 + Func.size f
  | .cos f => 1 + Func.size f
  | .tan f => 1 + Func.size f
  | .asin f => 1 + Func.size f
  | .atan f => 1 + Func.size f
  | .sqrt f => 1 + Func.size f
  | .qbrt f => 1 + Func.size f
  | .nthrt _ f => 1 + Func.size f

/-- `eval` with an explicit recursion budget: each call consumes one unit
of fuel and delegates to the children exactly as `Func.eval` does
(`expE` delegates to no child, faithfully to `FuncExpE::eval`); exhausted
fuel returns `none`.  Used to state that the recursive delegation of
`eval` terminates within `size` nested calls. -/
def Func.evalFuel : ℕ → Func → F64 → Option F64
  | 0, _, _ => none
  | _ + 1, .abstract, _ => some (.fin 0)
  | _ + 1, .const c, _ => some c
  | _ + 1, .idem, x => some x
  | k + 1, .sum f g, x =>
      match Func.evalFuel k f x, Func.evalFuel k g x with
      | some a, some b => some (F64.add a b)
      | _, _ => none
  | k + 1, .prod f g, x =>
      match Func.evalFuel k f x, Func.evalFuel k g x with
      | some a, some b => some (F64.mul a b)
      | _, _ => none
  | k + 1, .pow f n, x => (Func.evalFuel k f x).map (fun a => F64.powf a n)
  | k + 1, .expA a f, x => (Func.evalFuel k f x).map (fun v => F64.powf a v)
  | _ + 1, .expE _, x => some (F64.powf F64.E x)
  | k + 1, .logA b f, x => (Func.evalFuel k f x).map (fun a => F64.log a b)
  | k + 1, .logE f, x => (Func.evalFuel k f x).map F64.ln
  | k + 1, .sin f, x => (Func.evalFuel k f x).map F64.sin
  | k + 1, .cos f, x => (Func.evalFuel k f x).map F64.cos
  | k + 1, .tan f, x => (Func.evalFuel k f x).map F64.tan
  | k + 1, .asin f, x => (Func.evalFuel k f x).map F64.asin
  | k + 1, .atan f, x => (Func.evalFuel k f x).map F64.atan
  | k + 1, .sqrt f, x => (Func.evalFuel k f x).map F64.sqrt
  | k + 1, .qbrt f, x => (Func.evalFuel k f x).map F64.cbrt
  | k + 1, .nthrt n f, x =>
      (Func.evalFuel k f x).map (fun a => F64.powf a (F64.div (.fin 1) n))

/-- `powf` with a nonnegative finite base and a finite exponent is the
real power function. -/
theorem F64.powf_fin_of_nonneg (b e : ℝ) (hb : 0 ≤ b) :
    F64.powf (.fin b) (.fin e) = .fin (b ^ e) := by
  show (if b < 0 ∧ ¬ isIntValued e then F64.nan else .fin (b ^ e)) = .fin (b ^ e)
  rw [if_neg]
  rintro ⟨h, -⟩
  exact absurd hb (not_le.mpr h)

/-- The finite value `2` and the finite value `0` are distinct `f64`
values. -/
theorem fin_two_ne_fin_zero : F64.fin 2 ≠ F64.fin 0 := by
  intro h
  have h2 := F64.fin.inj h
  norm_num at h2

/-- Every node counts itself, so a tree has at least one node. -/
theorem Func.size_pos (t : Func) : 0 < Func.size t := by
  cases t <;> simp only [Func.size] <;> omega

/-- Claim C1: the claim states that for every Evaluable `f` and real `x`,
`ExpNatural(f).eval(x)` is Euler's constant raised to `f.eval(x)` — the
transform applied to the child's evaluated result, not to the raw input.
The code violates this: `FuncExpE::eval` computes `E.powf(x)` on the raw
input and never evaluates its child.  At `f = Constant(0.0)`, `x = 1.0`
the code returns `e^1 = e`, while Euler's constant raised to
`f.eval(1.0) = 0` is `1`, and `e ≠ 1`. -/
theorem C1_expE_ignores_child :
    Func.eval (.expE (.const (.fin 0))) (.fin 1) = .fin (Real.exp 1) ∧
    F64.powf F64.E (Func.eval (.const (.fin 0)) (.fin 1)) = .fin 1 ∧
    Func.eval (.expE (.const (.fin 0))) (.fin 1)
      ≠ F64.powf F64.E (Func.eval (.const (.fin 0)) (.fin 1)) := by
  have hcode : Func.eval (.expE (.const (.fin 0))) (.fin 1) = .fin (Real.exp 1) := by
    show F64.powf F64.E (.fin 1) = .fin (Real.exp 1)
    rw [F64.E, F64.powf_fin_of_nonneg _ _ (Real.exp_pos 1).le, Real.rpow_one]
  have hclaim : F64.powf F64.E (Func.eval (.const (.fin 0)) (.fin 1)) = .fin 1 := by
    show F64.powf F64.E (.fin 0) = .fin 1
    rw [F64.E, F64.powf_fin_of_nonneg _ _ (Real.exp_pos 1).le, Real.rpow_zero]
  refine ⟨hcode, hclaim, ?_⟩
  rw [hcode, hclaim]
  intro h
  have h1 := F64.fin.inj h
  rw [Real.exp_eq_one_iff] at h1
  norm_num at h1

/-- Claim C2: the round-trip law states that
`LogNatural(ExpNatural(f)).eval(x)` approximately equals `f.eval(x)`
whenever `f.eval(x)` is finite.  The code violates it through the
`FuncExpE::eval` defect: at `f = Constant(5.0)`, `x = 0.0` the code
computes `ln(e^0) = 0`, while `f.eval(0.0) = 5`, a gap of `5` that no
floating-point tolerance covers. -/
theorem C2_roundtrip_fails :
    Func.eval (.logE (.expE (.const (.fin 5)))) (.fin 0) = .fin 0 ∧
    Func.eval (.const (.fin 5)) (.fin 0) = .fin 5 ∧
    Func.eval (.logE (.expE (.const (.fin 5)))) (.fin 0)
      ≠ Func.eval (.const (.fin 5)) (.fin 0) := by
  have hcode : Func.eval (.logE (.expE (.const (.fin 5)))) (.fin 0) = .fin 0 := by
    show F64.ln (F64.powf F64.E (.fin 0)) = .fin 0
    rw [F64.E, F64.powf_fin_of_nonneg _ _ (Real.exp_pos 1).le, Real.rpow_zero]
    show (if (1 : ℝ) ≤ 0 then F64.nan else .fin (Real.log 1)) = .fin 0
    rw [if_neg (by norm_num), Real.log_one]
  refine ⟨hcode, rfl, ?_⟩
  rw [hcode]
  show F64.fin 0 ≠ F64.fin 5
  intro h
  have h5 := F64.fin.inj h
  norm_num at h5

/-- Claim C3: the claim states that `ArcCosine(f)` is an Evaluable whose
evaluation returns the arc cosine of `f.eval(x)`.  The code violates it:
`FuncAcos` is the single node kind of the catalogue with no
`impl FuncEval` block (its own doc comment nevertheless promises
`Acos(x) = acos(f(x))`), so it has no `eval` at all. -/
theorem C3_acos_lacks_eval :
    ∀ t : FuncType, hasFuncEvalImpl t = false ↔ t = FuncType.TrigAcos := by
  intro t
  cases t <;> simp [hasFuncEvalImpl]

/-- Claim C4: `FuncNthrt::new` asserts `n != 0f64`; with degree `0` the
assertion fails and no node is produced, and with any degree other than
the `f64` value `0` (including `nan`, which IEEE compares unequal to `0`)
construction succeeds. -/
theorem C4_nthrt_degree_check :
    (∀ f : Func, FuncNthrt.new (.fin 0) f = none) ∧
    (∀ (n : F64) (f : Func), n ≠ .fin 0 → (FuncNthrt.new n f).isSome = true) := by
  constructor
  · intro f
    unfold FuncNthrt.new
    rw [if_neg]
    simp [F64.ieeeNe, F64.ieeeEq]
  · intro n f hn
    unfold FuncNthrt.new
    rw [if_pos]
    · rfl
    · cases n with
      | fin r =>
          simp only [F64.ieeeNe, F64.ieeeEq]
          intro hr
          exact hn (by rw [hr])
      | nan => simp [F64.ieeeNe, F64.ieeeEq]

/-- Witness for C4 at degree `2` and child `Identity`: the degree is not
the `f64` value `0` and construction succeeds. -/
theorem C4_nthrt_degree_check_witness :
    F64.fin 2 ≠ F64.fin 0 ∧ (FuncNthrt.new (.fin 2) Func.idem).isSome = true :=
  ⟨fin_two_ne_fin_zero, C4_nthrt_degree_check.2 (.fin 2) Func.idem fin_two_ne_fin_zero⟩

/-- Claim C5: for a nonzero degree `n` and a child whose result is
positive, `NthRoot(n, f).eval(x)` equals `Power(f, 1.0/n).eval(x)`
exactly.  In the code both are the very same computation
`self.f.eval(x).powf(1.0 / n)`, so the equality is definitional (and
holds independently of the hypotheses, which are those the claim
states). -/
theorem C5_nthrt_refines_pow (f : Func) (n : F64) (x : ℝ)
    (_hn : n ≠ .fin 0)
    (_hpos : ∃ r : ℝ, Func.eval f (.fin x) = .fin r ∧ 0 < r) :
    Func.eval (.nthrt n f) (.fin x)
      = Func.eval (.pow f (F64.div (.fin 1) n)) (.fin x) := rfl

/-- Witness for C5 at `NthRoot(2.0, Identity)` and `x = 9.0`: the degree
is nonzero, the child result `9` is positive, and the two nodes agree. -/
theorem C5_nthrt_refines_pow_witness :
    F64.fin 2 ≠ F64.fin 0 ∧
    Func.eval Func.idem (.fin 9) = .fin 9 ∧ (0 : ℝ) < 9 ∧
    Func.eval (.nthrt (.fin 2) .idem) (.fin 9)
      = Func.eval (.pow .idem (F64.div (.fin 1) (.fin 2))) (.fin 9) :=
  ⟨fin_two_ne_fin_zero, rfl, by norm_num,
    C5_nthrt_refines_pow .idem (.fin 2) 9 fin_two_ne_fin_zero ⟨9, rfl, by norm_num⟩⟩

/-- Claim C6: for all Evaluables `f`, `g` and every real `x`,
`Sum(f,g).eval(x)` is exactly the `f64` sum of the child results and
`Product(f,g).eval(x)` is exactly their `f64` product; when both child
results are finite reals `a` and `b` the results are the finite values
`a + b` and `a * b`. -/
theorem C6_sum_prod (f g : Func) (x : ℝ) :
    (Func.eval (.sum f g) (.fin x)
       = F64.add (Func.eval f (.fin x)) (Func.eval g (.fin x))) ∧
    (Func.eval (.prod f g) (.fin x)
       = F64.mul (Func.eval f (.fin x)) (Func.eval g (.fin x))) ∧
    (∀ a b : ℝ, Func.eval f (.fin x) = .fin a → Func.eval g (.fin x) = .fin b →
       Func.eval (.sum f g) (.fin x) = .fin (a + b) ∧
       Func.eval (.prod f g) (.fin x) = .fin (a * b)) := by
  refine ⟨rfl, rfl, fun a b ha hb => ?_⟩
  constructor
  · show F64.add (Func.eval f (.fin x)) (Func.eval g (.fin x)) = .fin (a + b)
    rw [ha, hb]
    rfl
  · show F64.mul (Func.eval f (.fin x)) (Func.eval g (.fin x)) = .fin (a * b)
    rw [ha, hb]
    rfl

/-- Witness for C6 at `f = Identity`, `g = Constant(5.0)`, `x = 3.0`:
the children evaluate to the finite values `3` and `5`, and the sum and
product nodes return `8` and `15`. -/
theorem C6_sum_prod_witness :
    Func.eval Func.idem (.fin 3) = .fin 3 ∧
    Func.eval (.const (.fin 5)) (.fin 3) = .fin 5 ∧
    Func.eval (.sum .idem (.const (.fin 5))) (.fin 3) = .fin 8 ∧
    Func.eval (.prod .idem (.const (.fin 5))) (.fin 3) = .fin 15 := by
  have h := (C6_sum_prod Func.idem (.const (.fin 5)) 3).2.2 3 5 rfl rfl
  refine ⟨rfl, rfl, ?_, ?_⟩
  · rw [h.1]
    norm_num
  · rw [h.2]
    norm_num

/-- Claim C7: run-time domain violations propagate as `nan` rather than
errors: for every real input `x`, `SquareRoot(Constant(-1.0))` evaluates
to `nan` (square root of a negative value) and `ArcSine(Constant(2.0))`
evaluates to `nan` (arc sine outside `[-1, 1]`). -/
theorem C7_domain_violation_nan (x : ℝ) :
    Func.eval (.sqrt (.const (.fin (-1)))) (.fin x) = .nan ∧
    Func.eval (.asin (.const (.fin 2))) (.fin x) = .nan := by
  constructor
  · show (if (-1 : ℝ) < 0 then F64.nan else .fin (Real.sqrt (-1))) = .nan
    rw [if_pos (by norm_num)]
  · show (if (2 : ℝ) < -1 ∨ 1 < (2 : ℝ) then F64.nan
        else .fin (Real.arcsin 2)) = .nan
    rw [if_pos (Or.inr (by norm_num))]

/-- Claim C8: `LogWithBase(2.0, Identity).eval(8.0) = 3.0`.  The code
computes `8.0.log(2.0)`, i.e. `ln 8 / ln 2`, and `ln 8 = 3 ln 2` with
`ln 2 ≠ 0`, so the quotient is exactly `3`. -/
theorem C8_log_base_two_of_eight :
    Func.eval (.logA (.fin 2) .idem) (.fin 8) = .fin 3 := by
  have hlog2 : Real.log 2 ≠ 0 := ne_of_gt (Real.log_pos (by norm_num))
  show F64.div (F64.ln (.fin 8)) (F64.ln (.fin 2)) = .fin 3
  show F64.div (if (8 : ℝ) ≤ 0 then F64.nan else .fin (Real.log 8))
      (if (2 : ℝ) ≤ 0 then F64.nan else .fin (Real.log 2)) = .fin 3
  rw [if_neg (by norm_num), if_neg (by norm_num)]
  show (if Real.log 2 = 0 then F64.nan else .fin (Real.log 8 / Real.log 2))
      = .fin 3
  rw [if_neg hlog2]
  congr 1
  rw [show (8 : ℝ) = 2 ^ (3 : ℕ) by norm_num, Real.log_pow]
  push_cast
  field_simp

/-- Claim C9: evaluation of every constructed expression tree terminates
and returns a numeric value.  `eval` is pure recursive delegation, so its
recursion depth is bounded by the node count of the tree: with any fuel
of at least `size t` nested calls allowed, the fuel-metered evaluator
finishes (never returns `none`) and yields exactly the value of `eval` —
it neither fails nor diverges, for out-of-domain inputs included, since
the result is an `F64` (a finite value or `nan`). -/
theorem C9_eval_terminates :
    ∀ (fuel : ℕ) (t : Func) (x : F64), Func.size t ≤ fuel →
      Func.evalFuel fuel t x = some (Func.eval t x) := by
  intro fuel
  induction fuel with
  | zero =>
      intro t x h
      have := Func.size_pos t
      omega
  | succ k ih =>
      intro t x h
      cases t with
      | abstract => rfl
      | const c => rfl
      | idem => rfl
      | sum f g =>
          have hf : Func.size f ≤ k := by simp only [Func.size] at h; omega
          have hg : Func.size g ≤ k := by simp only [Func.size] at h; omega
          simp [Func.evalFuel, Func.eval, ih f x hf, ih g x hg]
      | prod f g =>
          have hf : Func.size f ≤ k := by simp only [Func.size] at h; omega
          have hg : Func.size g ≤ k := by simp only [Func.size] at h; omega
          simp [Func.evalFuel, Func.eval, ih f x hf, ih g x hg]
      | pow f n =>
          have hf : Func.size f ≤ k := by simp only [Func.size] at h; omega
          simp [Func.evalFuel, Func.eval, ih f x hf]
      | expA a f =>
          have hf : Func.size f ≤ k := by simp only [Func.size] at h; omega
          simp [Func.evalFuel, Func.eval, ih f x hf]
      | expE f => rfl
      | logA b f =>
          have hf : Func.size f ≤ k := by simp only [Func.size] at h; omega
          simp [Func.evalFuel, Func.eval, ih f x hf]
      | logE f =>
          have hf : Func.size f ≤ k := by simp only [Func.size] at h; omega
          simp [Func.evalFuel, Func.eval, ih f x hf]
      | sin f =>
          have hf : Func.size f ≤ k := by simp only [Func.size] at h; omega
          simp [Func.evalFuel, Func.eval, ih f x hf]
      | cos f =>
          have hf : Func.size f ≤ k := by simp only [Func.size] at h; omega
          simp [Func.evalFuel, Func.eval, ih f x hf]
      | tan f =>
          have hf : Func.size f ≤ k := by simp only [Func.size] at h; omega
          simp [Func.evalFuel, Func.eval, ih f x hf]
      | asin f =>
          have hf : Func.size f ≤ k := by simp only [Func.size] at h; omega
          simp [Func.evalFuel, Func.eval, ih f x hf]
      | atan f =>
          have hf : Func.size f ≤ k := by simp only [Func.size] at h; omega
          simp [Func.evalFuel, Func.eval, ih f x hf]
      | sqrt f =>
          have hf : Func.size f ≤ k := by simp only [Func.size] at h; omega
          simp [Func.evalFuel, Func.eval, ih f x hf]
      | qbrt f =>
          have hf : Func.size f ≤ k := by simp only [Func.size] at h; omega
          simp [Func.evalFuel, Func.eval, ih f x hf]
      | nthrt n f =>
          have hf : Func.size f ≤ k := by simp only [Func.size] at h; omega
          simp [Func.evalFuel, Func.eval, ih f x hf]

/-- Witness for C9 at the tree `Sum(Identity, Constant(5.0))` with fuel
`3` and input `2.0`. -/
theorem C9_eval_terminates_witness :
    Func.size (.sum .idem (.const (.fin 5))) ≤ 3 ∧
    Func.evalFuel 3 (.sum .idem (.const (.fin 5))) (.fin 2)
      = some (Func.eval (.sum .idem (.const (.fin 5))) (.fin 2)) :=
  ⟨by norm_num [Func.size],
    C9_eval_terminates 3 (.sum .idem (.const (.fin 5))) (.fin 2)
      (by norm_num [Func.size])⟩

/-- Claim C10: the `FuncNthrt::new` degree check rejects only the value
zero.  For a `nan` degree, the IEEE comparison `n != 0.0` holds (`nan`
compares unequal to everything), so construction succeeds and produces a
node carrying the `nan` degree. -/
theorem C10_nan_degree_passes (f : Func) :
    F64.ieeeNe F64.nan (.fin 0) ∧
    FuncNthrt.new F64.nan f = some (Func.nthrt F64.nan f) := by
  have h : F64.ieeeNe F64.nan (.fin 0) := by
    simp [F64.ieeeNe, F64.ieeeEq]
  refine ⟨h, ?_⟩
  unfold FuncNthrt.new
  rw [if_pos h]
